import Mathlib

/-!
Shallow embedding of the Change-Delivery-Accelerator-Platform core
(CodeGenerator.py, FlexcubeTestCaseGenerator.py, FunctionDocumentGenerator.py).

Python strings are modelled as lists of characters (`Chars`); similarity
scores as rationals; a raised exception as `Except.error`; the external
vector store as the per-collection result lists it would return.
-/

/-- Python strings modelled as lists of characters. -/
abbrev Chars := List Char

/-- Python substring test `pat in s`. -/
def containsSub (s pat : Chars) : Bool := decide (pat <:+: s)

/-- A scored match returned by one vector-collection query
(`qdrant_client.search` result element: `.score` and `.payload`). -/
structure ScoredPoint (α : Type) where
  score : Rat
  payload : α
deriving DecidableEq

namespace CodeGenerator

/-- The seven required section headers of `_format_final_result`
(CodeGenerator.py lines 284-292). -/
def required_sections : List Chars :=
  ["Intent of the Change:".data,
   "Affected Code or Packages:".data,
   "Insertion Points:".data,
   "New Code:".data,
   "Invocation of new programming unit in existing source:".data,
   "Explanation:".data,
   "Required Import:".data]

/-- The headers not occurring in `result` (the `missing` list built by the
loop at CodeGenerator.py lines 294-298, in `required_sections` order). -/
def missingSections (result : Chars) : List Chars :=
  required_sections.filter (fun sec => !containsSub result sec)

/-- Leading part of the error banner of `_format_final_result`. -/
def errorBannerHead : Chars :=
  "/* Error: The following sections are missing from the generated result: ".data

/-- Trailing part of the error banner, up to the original text. -/
def errorBannerTail : Chars := ". Please retry. */\n\n".data

/-- CodeGenerator._format_final_result (lines 282-304): if any required
section header is missing, wrap the text in an error banner listing the
missing headers (joined by a comma and space), else return it unchanged. -/
def format_final_result (result : Chars) : Chars :=
  if missingSections result = [] then result
  else
    errorBannerHead ++ List.intercalate ", ".data (missingSections result)
      ++ errorBannerTail ++ result

/-- Requirement truncation at pipeline entry (run_crew, lines 96-97):
`if len(code_requirements) > 200: code_requirements[:200] + "..."`. -/
def truncate_requirements (code_requirements : Chars) : Chars :=
  if 200 < code_requirements.length then code_requirements.take 200 ++ "...".data
  else code_requirements

/-- Prior-stage output truncation before review (_review_task_fn,
lines 222-224): `if len(s) > 1000: s[:1000] + "..."`. -/
def truncate_review_input (code_output : Chars) : Chars :=
  if 1000 < code_output.length then code_output.take 1000 ++ "...".data
  else code_output

/-- A retrieval payload: either a Python dict (an association list from
field names to the stringified field values, with Python truthiness of a
value modelled as non-emptiness of its string) or a non-dict value carried
as its stringification. -/
inductive PyPayload where
  | dict : List (Chars × Chars) → PyPayload
  | other : Chars → PyPayload

/-- First-match association lookup, modelling `key in payload` /
`payload[key]` on a Python dict. -/
def lookupKey (k : Chars) : List (Chars × Chars) → Option Chars
  | [] => none
  | (k', v) :: rest => if k' = k then some v else lookupKey k rest

/-- Python `str(payload)` on a dict, rendered as `\x7b'k': 'v', ...\x7d`. -/
def pyStrOfDict (d : List (Chars × Chars)) : Chars :=
  "\x7b".data
    ++ List.intercalate ", ".data
        (d.map (fun e => "\x27".data ++ e.1 ++ "\x27: \x27".data ++ e.2 ++ "\x27".data))
    ++ "\x7d".data

/-- CodeGenerator._extract_content_from_payload (lines 78-88): prefer a
truthy `content` field, then a truthy `text` field, then the stringified
whole dict; a non-dict payload is stringified directly. -/
def extract_content_from_payload (payload : PyPayload) : Chars :=
  match payload with
  | .dict d =>
    if (lookupKey "content".data d).getD [] ≠ [] then (lookupKey "content".data d).getD []
    else if (lookupKey "text".data d).getD [] ≠ [] then (lookupKey "text".data d).getD []
    else pyStrOfDict d
  | .other s => s

/-- Outcome of one backend completion call inside `LiteLLMGroqWrapper.chat`:
success with content, a rate-limit-class error, or any other error. -/
inductive LLMOutcome where
  | success : Chars → LLMOutcome
  | rateLimited : LLMOutcome
  | failure : LLMOutcome

/-- Fixed message returned on `litellm.RateLimitError` (line 45). -/
def rate_limit_message : Chars :=
  "The request exceeded the rate limit. Please try with a simpler query or try again later.".data

/-- Fixed message returned on any other exception (line 48). -/
def generic_error_message : Chars :=
  "Sorry, there was an error generating the code. Please try again with more detailed requirements.".data

/-- LiteLLMGroqWrapper.chat (lines 32-48). The backend is modelled as the
sequence of outcomes successive completion calls would produce; `chat`
issues exactly one call (index 0) and maps its outcome to a string. -/
def chat (backend : Nat → LLMOutcome) : Chars :=
  match backend 0 with
  | .success content => content
  | .rateLimited => rate_limit_message
  | .failure => generic_error_message

/-- CodeGenerator.search_relevant_code (lines 50-76). `model` is the
SentenceTransformer (`none` when initialization failed), `collections` the
requested names, `existing` the store catalog, and `searchColl` the
similarity search on one collection (`Except.error` models a raised
exception, caught by the inner `try`). Only the first valid collection is
searched. -/
def search_relevant_code {α : Type} (model : Option Unit)
    (collections existing : List Chars)
    (searchColl : Chars → Except Unit (List α)) : List α :=
  match model with
  | none => []
  | some _ =>
    match collections.filter (fun c => existing.contains c) with
    | [] => []
    | c :: _ =>
      match searchColl c with
      | .ok rs => rs
      | .error _ => []

end CodeGenerator

namespace FlexcubeTestCaseGenerator

/-- FlexcubeTestCaseGenerator._pad_embeddings (lines 48-70): pad by
`target_dim - original_dim` zeros when that difference is positive, else
truncate to `target_dim`. The pad width is computed from the configured
dimensions, exactly as in the source. -/
def pad_embeddings (original_dim target_dim : Nat) (embeddings : List Rat) : List Rat :=
  let pad_size : Int := (target_dim : Int) - (original_dim : Int)
  if 0 < pad_size then embeddings ++ List.replicate pad_size.toNat 0
  else embeddings.take target_dim

/-- Stable insertion step for Python `list.sort(key=score, reverse=True)`:
walk past strictly larger scores, insert before the first element whose
score is not larger, so equal scores keep encounter order. -/
def insertScoreDesc {α : Type} (x : ScoredPoint α) :
    List (ScoredPoint α) → List (ScoredPoint α)
  | [] => [x]
  | y :: ys => if x.score < y.score then y :: insertScoreDesc x ys else x :: y :: ys

/-- Stable descending sort by score, modelling
`all_results.sort(key=lambda x: x.score, reverse=True)` (line 98); its
characterizing properties (permutation, descending, stable) are proved
below. -/
def sortScoreDesc {α : Type} : List (ScoredPoint α) → List (ScoredPoint α)
  | [] => []
  | x :: xs => insertScoreDesc x (sortScoreDesc xs)

/-- FlexcubeTestCaseGenerator.semantic_search (lines 72-103), given the
per-collection search results: concatenate in collection order, sort by
descending score, keep the first `top_k`. -/
def semantic_search {α : Type} (collectionResults : List (List (ScoredPoint α)))
    (top_k : Nat) : List (ScoredPoint α) :=
  let all_results := collectionResults.foldl (fun acc rs => acc ++ rs) []
  (sortScoreDesc all_results).take top_k

/-- The collection loop of semantic_search (lines 89-95) run over results
that may raise: there is no per-collection exception handler, so the first
failure aborts the loop and discards everything gathered so far. -/
def gatherResults {α : Type} :
    List (Except Unit (List (ScoredPoint α))) → Except Unit (List (ScoredPoint α))
  | [] => .ok []
  | c :: cs =>
    match c with
    | .error e => .error e
    | .ok rs =>
      match gatherResults cs with
      | .error e => .error e
      | .ok rest => .ok (rs ++ rest)

/-- semantic_search over fallible per-collection searches: a raised
per-collection error propagates out of the whole call. -/
def semantic_searchE {α : Type} (collectionResults : List (Except Unit (List (ScoredPoint α))))
    (top_k : Nat) : Except Unit (List (ScoredPoint α)) :=
  match gatherResults collectionResults with
  | .error e => .error e
  | .ok all_results => .ok ((sortScoreDesc all_results).take top_k)

end FlexcubeTestCaseGenerator

namespace FunctionDocumentGenerator

/-- FunctionDocumentGenerator.generate_embeddings (lines 44-56): right-pad
with zeros to 896 when the native vector is shorter, else truncate to 896. -/
def generate_embeddings_resize (embeddings : List Rat) : List Rat :=
  if embeddings.length < 896 then
    embeddings ++ List.replicate (896 - embeddings.length) 0
  else embeddings.take 896

/-- FunctionDocumentGenerator.search_vector_db (lines 58-76), given the
per-collection outcomes: each collection is searched inside its own
`try`/`except`, so a failing collection is skipped and the others'
results are still collected in order. -/
def search_vector_db {α : Type} (collectionResults : List (Except Unit (List α))) : List α :=
  collectionResults.foldl
    (fun results r =>
      match r with
      | .ok xs => results ++ xs
      | .error _ => results) []

end FunctionDocumentGenerator

open CodeGenerator FlexcubeTestCaseGenerator FunctionDocumentGenerator

theorem containsSub_iff {s pat : Chars} : containsSub s pat = true ↔ pat <:+: s := by
  simp [containsSub]

theorem infix_intercalate_of_mem {α : Type} {x : List α} {l : List (List α)}
    (sep : List α) (h : x ∈ l) : x <:+: List.intercalate sep l := by
  induction l with
  | nil => simp at h
  | cons a t ih =>
    cases t with
    | nil =>
      rw [List.mem_singleton] at h
      subst h
      simp [List.intercalate]
    | cons b t2 =>
      rcases List.mem_cons.mp h with rfl | hmem
      · have he : List.intercalate sep (x :: b :: t2)
            = x ++ (sep ++ List.intercalate sep (b :: t2)) := by
          simp [List.intercalate, List.intersperse_cons_cons, List.append_assoc]
        rw [he]
        exact (List.prefix_append _ _).isInfix
      · have he : List.intercalate sep (a :: b :: t2)
            = (a ++ sep) ++ List.intercalate sep (b :: t2) := by
          simp [List.intercalate, List.intersperse_cons_cons, List.append_assoc]
        rw [he]
        exact (ih hmem).trans (List.suffix_append _ _).isInfix

theorem missingSections_eq_nil_iff {x : Chars} :
    missingSections x = [] ↔ ∀ sec ∈ required_sections, containsSub x sec = true := by
  unfold missingSections
  rw [List.filter_eq_nil_iff]
  constructor
  · intro h sec hsec
    have := h sec hsec
    simpa using this
  · intro h sec hsec
    simp [h sec hsec]

theorem sec_infix_format_final_result {sec : Chars} (x : Chars)
    (h : sec ∈ required_sections) : sec <:+: format_final_result x := by
  unfold format_final_result
  by_cases hm : missingSections x = []
  · rw [if_pos hm]
    exact containsSub_iff.mp (missingSections_eq_nil_iff.mp hm sec h)
  · rw [if_neg hm]
    by_cases hc : containsSub x sec = true
    · exact (containsSub_iff.mp hc).trans (List.suffix_append _ x).isInfix
    · have hmem : sec ∈ missingSections x := by
        unfold missingSections
        refine List.mem_filter.mpr ⟨h, ?_⟩
        simp [hc]
      have h1 : sec <:+: List.intercalate ", ".data (missingSections x) :=
        infix_intercalate_of_mem _ hmem
      have hA : List.intercalate ", ".data (missingSections x)
          <:+: errorBannerHead ++ List.intercalate ", ".data (missingSections x) :=
        (List.suffix_append _ _).isInfix
      have hB : errorBannerHead ++ List.intercalate ", ".data (missingSections x)
          <:+: (errorBannerHead ++ List.intercalate ", ".data (missingSections x))
            ++ errorBannerTail :=
        (List.prefix_append _ _).isInfix
      have hC : (errorBannerHead ++ List.intercalate ", ".data (missingSections x))
            ++ errorBannerTail
          <:+: ((errorBannerHead ++ List.intercalate ", ".data (missingSections x))
            ++ errorBannerTail) ++ x :=
        (List.prefix_append _ _).isInfix
      exact h1.trans ((hA.trans hB).trans hC)

theorem format_final_result_conformant {x : Chars} (h : missingSections x = []) :
    format_final_result x = x := by
  unfold format_final_result
  rw [if_pos h]

theorem missingSections_format_final_result (x : Chars) :
    missingSections (format_final_result x) = [] :=
  missingSections_eq_nil_iff.mpr fun _ hsec =>
    containsSub_iff.mpr (sec_infix_format_final_result x hsec)

/-- C3: for every final-stage text missing at least one of the seven
required section headers, `_format_final_result` returns the error banner
naming exactly the missing headers (joined by a comma and space), followed
by the original text verbatim as a suffix, hence as a substring; each
missing header occurs verbatim inside the result. -/
theorem c3_validate_banner (result : Chars)
    (h : ∃ sec ∈ required_sections, containsSub result sec = false) :
    format_final_result result
        = errorBannerHead ++ List.intercalate ", ".data (missingSections result)
          ++ errorBannerTail ++ result
      ∧ result <:+: format_final_result result
      ∧ (∀ sec ∈ required_sections, containsSub result sec = false →
          sec <:+: format_final_result result) := by
  have hne : missingSections result ≠ [] := by
    intro heq
    obtain ⟨sec, hsec, hfalse⟩ := h
    have := missingSections_eq_nil_iff.mp heq sec hsec
    rw [hfalse] at this
    exact Bool.false_ne_true this
  refine ⟨?_, ?_, ?_⟩
  · unfold format_final_result
    rw [if_neg hne]
  · unfold format_final_result
    rw [if_neg hne]
    exact (List.suffix_append _ result).isInfix
  · intro sec hsec _
    exact sec_infix_format_final_result result hsec

theorem c3_validate_banner_witness :
    ([] : Chars) <:+: format_final_result [] := by
  have h := c3_validate_banner [] (by decide)
  exact h.2.1

/-- C4: for every text containing all seven required section headers as
substrings, `_format_final_result` returns the text unchanged, and
applying it twice to such a text yields the same string as applying it
once. -/
theorem c4_validate_conformant (result : Chars)
    (h : ∀ sec ∈ required_sections, containsSub result sec = true) :
    format_final_result result = result
      ∧ format_final_result (format_final_result result) = format_final_result result := by
  have hm : missingSections result = [] := missingSections_eq_nil_iff.mpr h
  refine ⟨format_final_result_conformant hm, ?_⟩
  rw [format_final_result_conformant hm]
  exact format_final_result_conformant hm

theorem c4_validate_conformant_witness :
    format_final_result (List.intercalate [' '] required_sections)
      = List.intercalate [' '] required_sections := by
  have h := c4_validate_conformant (List.intercalate [' '] required_sections)
    (fun sec hsec => containsSub_iff.mpr (infix_intercalate_of_mem [' '] hsec))
  exact h.1

/-- C10: `_format_final_result` is idempotent on every input string, not
only on conformant ones: the banner it prepends names each missing header
verbatim, so its output always contains all seven required headers and a
second application returns it unchanged. -/
theorem c10_validate_idempotent (x : Chars) :
    format_final_result (format_final_result x) = format_final_result x :=
  format_final_result_conformant (missingSections_format_final_result x)

/-- C1: resizing a native embedding to a target dimension yields a vector
of exactly the target length: right-padded with zeros when the native
dimension is smaller, truncated to the first target-length components when
larger, and unchanged when equal. Stated for `_pad_embeddings`
(FlexcubeTestCaseGenerator, whose pad width is computed from the
configured native dimension, assumed to match the vector) and for
`generate_embeddings` (FunctionDocumentGenerator, target fixed at 896). -/
theorem c1_embed_resized (original_dim target_dim : Nat) (v : List Rat)
    (hv : v.length = original_dim) :
    ((pad_embeddings original_dim target_dim v).length = target_dim
      ∧ (original_dim < target_dim →
          pad_embeddings original_dim target_dim v
            = v ++ List.replicate (target_dim - original_dim) 0)
      ∧ (target_dim < original_dim →
          pad_embeddings original_dim target_dim v = v.take target_dim)
      ∧ (original_dim = target_dim → pad_embeddings original_dim target_dim v = v))
    ∧ ((generate_embeddings_resize v).length = 896
      ∧ (v.length < 896 →
          generate_embeddings_resize v = v ++ List.replicate (896 - v.length) 0)
      ∧ (896 < v.length → generate_embeddings_resize v = v.take 896)
      ∧ (v.length = 896 → generate_embeddings_resize v = v)) := by
  constructor
  · simp only [pad_embeddings]
    by_cases hlt : original_dim < target_dim
    · have hpos : (0 : Int) < (target_dim : Int) - (original_dim : Int) := by omega
      rw [if_pos hpos]
      have htn : ((target_dim : Int) - (original_dim : Int)).toNat
          = target_dim - original_dim := by omega
      refine ⟨?_, fun _ => by rw [htn], fun hgt => by omega, fun heq => by omega⟩
      simp [hv, htn]
      omega
    · have hneg : ¬ (0 : Int) < (target_dim : Int) - (original_dim : Int) := by omega
      rw [if_neg hneg]
      have hle : target_dim ≤ v.length := by omega
      refine ⟨?_, fun h => by omega, fun _ => rfl, fun heq => ?_⟩
      · simp [List.length_take]
        omega
      · rw [heq] at hv
        rw [← hv, List.take_length]
  · simp only [generate_embeddings_resize]
    by_cases hlt : v.length < 896
    · rw [if_pos hlt]
      refine ⟨?_, fun _ => rfl, fun hgt => by omega, fun heq => by omega⟩
      simp
      omega
    · rw [if_neg hlt]
      refine ⟨?_, fun h => by omega, fun _ => rfl, fun heq => ?_⟩
      · simp [List.length_take]
        omega
      · rw [← heq, List.take_length]

theorem c1_embed_resized_witness :
    (pad_embeddings 2 4 [(1 : Rat), 2]).length = 4
      ∧ pad_embeddings 2 4 [(1 : Rat), 2] = [1, 2, 0, 0]
      ∧ pad_embeddings 4 3 [(1 : Rat), 2, 3, 4] = [1, 2, 3] := by
  have h1 := c1_embed_resized 2 4 [(1 : Rat), 2] (by decide)
  have h2 := c1_embed_resized 4 3 [(1 : Rat), 2, 3, 4] (by decide)
  refine ⟨h1.1.1, ?_, ?_⟩
  · rw [h1.1.2.1 (by decide)]
    decide
  · rw [h2.1.2.2.1 (by decide)]
    decide

/-- C5 counterexample: the claim says a 5000-character requirement
description is clipped to 200 characters at pipeline entry, but `run_crew`
appends the three-character marker "..." after the 200-character cut, so
the result has 203 characters, not 200. -/
theorem c5_truncation_counterexample :
    (truncate_requirements (List.replicate 5000 'a')).length = 203 ∧ (203 : Nat) ≠ 200 := by
  constructor
  · have h : (200 : Nat) < (List.replicate 5000 'a').length := by
      rw [List.length_replicate]
      omega
    simp only [truncate_requirements, if_pos h]
    rw [List.length_append, List.length_take, List.length_replicate,
      show ("...".data).length = 3 from rfl]
    omega
  · decide

/-- C5 (amended): a requirement description longer than 200 characters is
replaced at pipeline entry by its first 200 characters followed by the
marker "..." (203 characters in all); a prior-stage output longer than
1000 characters is replaced by its first 1000 characters followed by
"..." (1003 characters) before being shown to the reviewer; inputs at or
under the budget pass through unchanged. -/
theorem c5_truncation_budgets (s t : Chars) :
    (200 < s.length →
        truncate_requirements s = s.take 200 ++ "...".data
          ∧ (truncate_requirements s).length = 203)
      ∧ (s.length ≤ 200 → truncate_requirements s = s)
      ∧ (1000 < t.length →
          truncate_review_input t = t.take 1000 ++ "...".data
            ∧ (truncate_review_input t).length = 1003)
      ∧ (t.length ≤ 1000 → truncate_review_input t = t) := by
  refine ⟨fun h => ⟨?_, ?_⟩, fun h => ?_, fun h => ⟨?_, ?_⟩, fun h => ?_⟩
  · simp only [truncate_requirements, if_pos h]
  · simp only [truncate_requirements, if_pos h]
    rw [List.length_append, List.length_take, show ("...".data).length = 3 from rfl]
    omega
  · simp only [truncate_requirements]
    rw [if_neg (by omega)]
  · simp only [truncate_review_input, if_pos h]
  · simp only [truncate_review_input, if_pos h]
    rw [List.length_append, List.length_take, show ("...".data).length = 3 from rfl]
    omega
  · simp only [truncate_review_input]
    rw [if_neg (by omega)]

theorem c5_truncation_budgets_witness :
    truncate_requirements (List.replicate 201 'a') = List.replicate 200 'a' ++ "...".data
      ∧ truncate_review_input (List.replicate 900 'b') = List.replicate 900 'b' := by
  have h := c5_truncation_budgets (List.replicate 201 'a') (List.replicate 900 'b')
  constructor
  · rw [(h.1 (by rw [List.length_replicate]; omega)).1]
    congr 1
  · exact h.2.2.2 (by rw [List.length_replicate]; omega)

theorem insertScoreDesc_perm {α : Type} (x : ScoredPoint α) (l : List (ScoredPoint α)) :
    List.Perm (insertScoreDesc x l) (x :: l) := by
  induction l with
  | nil => exact List.Perm.refl _
  | cons y ys ih =>
    unfold insertScoreDesc
    by_cases h : x.score < y.score
    · rw [if_pos h]
      exact (ih.cons y).trans (List.Perm.swap x y ys)
    · rw [if_neg h]

theorem insertScoreDesc_pairwise {α : Type} {x : ScoredPoint α} {l : List (ScoredPoint α)}
    (h : List.Pairwise (fun a b : ScoredPoint α => b.score ≤ a.score) l) :
    List.Pairwise (fun a b : ScoredPoint α => b.score ≤ a.score) (insertScoreDesc x l) := by
  induction l with
  | nil => simp [insertScoreDesc]
  | cons y ys ih =>
    rcases List.pairwise_cons.mp h with ⟨hy, hys⟩
    unfold insertScoreDesc
    by_cases hlt : x.score < y.score
    · rw [if_pos hlt]
      refine List.pairwise_cons.mpr ⟨?_, ih hys⟩
      intro z hz
      rcases List.mem_cons.mp ((insertScoreDesc_perm x ys).subset hz) with rfl | hmem
      · exact le_of_lt hlt
      · exact hy z hmem
    · rw [if_neg hlt]
      have hxy : y.score ≤ x.score := le_of_not_lt hlt
      refine List.pairwise_cons.mpr ⟨?_, h⟩
      intro z hz
      rcases List.mem_cons.mp hz with rfl | hmem
      · exact hxy
      · exact le_trans (hy z hmem) hxy

theorem sortScoreDesc_perm {α : Type} (l : List (ScoredPoint α)) :
    List.Perm (sortScoreDesc l) l := by
  induction l with
  | nil => exact List.Perm.refl _
  | cons x xs ih =>
    exact (insertScoreDesc_perm x (sortScoreDesc xs)).trans (ih.cons x)

theorem sortScoreDesc_pairwise {α : Type} (l : List (ScoredPoint α)) :
    List.Pairwise (fun a b : ScoredPoint α => b.score ≤ a.score) (sortScoreDesc l) := by
  induction l with
  | nil => simp [sortScoreDesc]
  | cons x xs ih => exact insertScoreDesc_pairwise ih

theorem filter_insertScoreDesc {α : Type} (x : ScoredPoint α) (l : List (ScoredPoint α))
    (s : Rat) :
    (insertScoreDesc x l).filter (fun p => decide (p.score = s))
      = (x :: l).filter (fun p => decide (p.score = s)) := by
  induction l with
  | nil => rfl
  | cons y ys ih =>
    unfold insertScoreDesc
    by_cases hlt : x.score < y.score
    · rw [if_pos hlt]
      simp only [List.filter_cons]
      rw [ih]
      simp only [List.filter_cons]
      by_cases hy : y.score = s
      · by_cases hx : x.score = s
        · exact absurd hlt (by rw [hx, hy]; exact lt_irrefl s)
        · simp [hx, hy]
      · by_cases hx : x.score = s
        · simp [hx, hy]
        · simp [hx, hy]
    · rw [if_neg hlt]

theorem sortScoreDesc_stable {α : Type} (l : List (ScoredPoint α)) (s : Rat) :
    (sortScoreDesc l).filter (fun p => decide (p.score = s))
      = l.filter (fun p => decide (p.score = s)) := by
  induction l with
  | nil => rfl
  | cons x xs ih =>
    show (insertScoreDesc x (sortScoreDesc xs)).filter _ = _
    rw [filter_insertScoreDesc]
    simp only [List.filter_cons, ih]

theorem foldl_append_eq_flatten {α : Type} (ls : List (List α)) (acc : List α) :
    ls.foldl (fun a rs => a ++ rs) acc = acc ++ ls.flatten := by
  induction ls generalizing acc with
  | nil => simp
  | cons h t ih => simp [ih, List.append_assoc]

/-- C2: the merged result of `semantic_search` is the concatenation of the
per-collection matches (in collection order) sorted by descending score —
a permutation of the concatenation, pairwise non-increasing in score,
stable in the sense that the matches carrying any given score keep their
encounter order — truncated to at most `top_k` elements; on scores
[0.9, 0.95, 0.2] from one collection and [0.99] from another with
`top_k = 2`, it returns the 0.99 match then the 0.95 match. -/
theorem c2_semantic_search_merge {α : Type} (collectionResults : List (List (ScoredPoint α)))
    (top_k : Nat) (a b c d : α) :
    semantic_search collectionResults top_k
        = (sortScoreDesc collectionResults.flatten).take top_k
      ∧ List.Pairwise (fun p q : ScoredPoint α => q.score ≤ p.score)
          (semantic_search collectionResults top_k)
      ∧ List.Perm (sortScoreDesc collectionResults.flatten) collectionResults.flatten
      ∧ (∀ s : Rat,
          (sortScoreDesc collectionResults.flatten).filter (fun p => decide (p.score = s))
            = collectionResults.flatten.filter (fun p => decide (p.score = s)))
      ∧ (semantic_search collectionResults top_k).length ≤ top_k
      ∧ semantic_search [[⟨9/10, a⟩, ⟨19/20, b⟩, ⟨1/5, c⟩], [⟨99/100, d⟩]] 2
          = [⟨99/100, d⟩, ⟨19/20, b⟩] := by
  have heq : semantic_search collectionResults top_k
      = (sortScoreDesc collectionResults.flatten).take top_k := by
    simp only [semantic_search]
    rw [foldl_append_eq_flatten]
    rw [List.nil_append]
  refine ⟨heq, ?_, sortScoreDesc_perm _, fun s => sortScoreDesc_stable _ s, ?_, ?_⟩
  · rw [heq]
    exact List.Pairwise.sublist (List.take_sublist _ _) (sortScoreDesc_pairwise _)
  · rw [heq]
    exact List.length_take_le _ _
  · norm_num [semantic_search, sortScoreDesc, insertScoreDesc]

theorem search_vector_db_eq {α : Type} (rs : List (Except Unit (List α))) :
    search_vector_db rs = (rs.filterMap Except.toOption).flatten := by
  suffices h : ∀ acc : List α,
      rs.foldl (fun results r =>
        match r with
        | .ok xs => results ++ xs
        | .error _ => results) acc = acc ++ (rs.filterMap Except.toOption).flatten by
    simpa [search_vector_db] using h []
  induction rs with
  | nil => simp
  | cons r t ih =>
    intro acc
    cases r with
    | ok xs => simp [ih, Except.toOption, List.append_assoc]
    | error e => simp [ih, Except.toOption]

theorem gatherResults_error {α : Type} {colls : List (Except Unit (List (ScoredPoint α)))}
    (h : Except.error () ∈ colls) : gatherResults colls = Except.error () := by
  induction colls with
  | nil => simp at h
  | cons c cs ih =>
    rcases List.mem_cons.mp h with rfl | hmem
    · rfl
    · unfold gatherResults
      cases c with
      | error e =>
        cases e
        rfl
      | ok rs => rw [ih hmem]

/-- C6 counterexample: in `FlexcubeTestCaseGenerator.semantic_search`
there is no per-collection exception handler, so with a first collection
returning one match and a second collection whose search fails, the whole
call propagates the failure instead of returning the first collection's
match. -/
theorem c6_collection_failure_counterexample :
    semantic_searchE [Except.ok [⟨1, (0 : Nat)⟩], Except.error ()] 5 = Except.error () := rfl

/-- C6 (amended): `FunctionDocumentGenerator.search_vector_db` searches
each collection inside its own handler, so a failing collection is skipped
and matches from the other collections are still collected in order, and
if every collection fails it returns the empty sequence; but
`FlexcubeTestCaseGenerator.semantic_search` propagates a per-collection
failure to its caller instead of skipping it. -/
theorem c6_collection_failures {α β : Type} (rs : List (Except Unit (List α)))
    (colls : List (Except Unit (List (ScoredPoint β)))) (top_k : Nat) :
    search_vector_db rs = (rs.filterMap Except.toOption).flatten
      ∧ ((∀ r ∈ rs, r = Except.error ()) → search_vector_db rs = [])
      ∧ (Except.error () ∈ colls → semantic_searchE colls top_k = Except.error ()) := by
  refine ⟨search_vector_db_eq rs, fun h => ?_, fun h => ?_⟩
  · rw [search_vector_db_eq]
    have hnil : rs.filterMap Except.toOption = [] := by
      rw [List.filterMap_eq_nil_iff]
      intro r hr
      rw [h r hr]
      rfl
    rw [hnil]
    rfl
  · unfold semantic_searchE
    rw [gatherResults_error h]

theorem c6_collection_failures_witness :
    search_vector_db [Except.error (), Except.ok [(1 : Nat)], Except.error ()] = [1]
      ∧ search_vector_db ([Except.error ()] : List (Except Unit (List Nat))) = []
      ∧ semantic_searchE [Except.error ()] 3
          = (Except.error () : Except Unit (List (ScoredPoint Nat))) := by
  have h1 := c6_collection_failures
    [Except.error (), Except.ok [(1 : Nat)], Except.error ()]
    ([Except.error ()] : List (Except Unit (List (ScoredPoint Nat)))) 3
  have h2 := c6_collection_failures ([Except.error ()] : List (Except Unit (List Nat)))
    ([] : List (Except Unit (List (ScoredPoint Nat)))) 0
  refine ⟨h1.1.trans (by decide), h2.2.1 ?_, h1.2.2 (List.mem_singleton.mpr rfl)⟩
  intro r hr
  rw [List.mem_singleton] at hr
  exact hr

/-- C7: `search_relevant_code` short-circuits to an empty result list,
without raising, whenever the embedding model failed to initialize or
whenever the intersection of the requested collections with the
collections existing in the store is empty. -/
theorem c7_search_short_circuits {α : Type} (model : Option Unit)
    (collections existing : List Chars) (searchColl : Chars → Except Unit (List α)) :
    (model = none → search_relevant_code model collections existing searchColl = [])
      ∧ (collections.filter (fun c => existing.contains c) = [] →
          search_relevant_code model collections existing searchColl = []) := by
  constructor
  · rintro rfl
    rfl
  · intro h
    cases model with
    | none => rfl
    | some u =>
      unfold search_relevant_code
      rw [h]

theorem c7_search_short_circuits_witness :
    @search_relevant_code Nat none ["A".data] ["A".data] (fun _ => Except.ok [1]) = []
      ∧ @search_relevant_code Nat (some ()) ["A".data] [] (fun _ => Except.ok [1]) = [] := by
  have h1 := @c7_search_short_circuits Nat none ["A".data] ["A".data] (fun _ => Except.ok [1])
  have h2 := @c7_search_short_circuits Nat (some ()) ["A".data] [] (fun _ => Except.ok [1])
  exact ⟨h1.1 rfl, h2.2 (by decide)⟩

/-- C8: `_extract_content_from_payload` always returns a string, chosen by
priority: the stringified `content` value when the payload is a dict with
a truthy `content` field, else the stringified `text` value when that
field is truthy, else the stringified whole dict, and the stringified
payload itself when it is not a dict. -/
theorem c8_extract_content_priority (d : List (Chars × Chars)) (v s : Chars) :
    (lookupKey "content".data d = some v → v ≠ [] →
        extract_content_from_payload (PyPayload.dict d) = v)
      ∧ ((lookupKey "content".data d).getD [] = [] →
          lookupKey "text".data d = some v → v ≠ [] →
          extract_content_from_payload (PyPayload.dict d) = v)
      ∧ ((lookupKey "content".data d).getD [] = [] →
          (lookupKey "text".data d).getD [] = [] →
          extract_content_from_payload (PyPayload.dict d) = pyStrOfDict d)
      ∧ extract_content_from_payload (PyPayload.other s) = s := by
  refine ⟨fun h1 h2 => ?_, fun h1 h2 h3 => ?_, fun h1 h2 => ?_, rfl⟩
  · simp only [extract_content_from_payload, h1, Option.getD_some]
    rw [if_pos h2]
  · simp only [extract_content_from_payload, h1, h2, Option.getD_some]
    rw [if_neg (by simp), if_pos h3]
  · simp only [extract_content_from_payload, h1, h2]
    rw [if_neg (by simp), if_neg (by simp)]

theorem c8_extract_content_priority_witness :
    extract_content_from_payload (PyPayload.dict [("content".data, "C".data)]) = "C".data
      ∧ extract_content_from_payload
          (PyPayload.dict [("content".data, []), ("text".data, "T".data)]) = "T".data
      ∧ extract_content_from_payload (PyPayload.dict [("id".data, [])])
          = pyStrOfDict [("id".data, [])]
      ∧ extract_content_from_payload (PyPayload.other "X".data) = "X".data := by
  have h1 := c8_extract_content_priority [("content".data, "C".data)] "C".data "X".data
  have h2 := c8_extract_content_priority
    [("content".data, []), ("text".data, "T".data)] "T".data "X".data
  have h3 := c8_extract_content_priority [("id".data, [])] [] "X".data
  exact ⟨h1.1 (by decide) (by decide), h2.2.1 (by decide) (by decide) (by decide),
    h3.2.2.1 (by decide) (by decide), h1.2.2.2⟩

/-- C9: `LiteLLMGroqWrapper.chat` never raises: a rate-limit-class backend
failure yields the fixed capacity-exceeded message, any other backend
failure yields the fixed generic degraded-mode message (the two messages
are distinct), success yields the backend's completion text, and the
result depends only on the single backend call it issues (no retry within
the call). -/
theorem c9_chat_error_mapping (backend backend2 : Nat → LLMOutcome) (content : Chars) :
    (backend 0 = LLMOutcome.rateLimited → chat backend = rate_limit_message)
      ∧ (backend 0 = LLMOutcome.failure → chat backend = generic_error_message)
      ∧ (backend 0 = LLMOutcome.success content → chat backend = content)
      ∧ (backend 0 = backend2 0 → chat backend = chat backend2)
      ∧ rate_limit_message ≠ generic_error_message := by
  refine ⟨fun h => ?_, fun h => ?_, fun h => ?_, fun h => ?_, by decide⟩
  · unfold chat
    rw [h]
  · unfold chat
    rw [h]
  · unfold chat
    rw [h]
  · unfold chat
    rw [h]

theorem c9_chat_error_mapping_witness :
    chat (fun _ => LLMOutcome.rateLimited) = rate_limit_message
      ∧ chat (fun _ => LLMOutcome.failure) = generic_error_message
      ∧ chat (fun _ => LLMOutcome.success "ok".data) = "ok".data := by
  have h1 := c9_chat_error_mapping (fun _ => LLMOutcome.rateLimited)
    (fun _ => LLMOutcome.rateLimited) "ok".data
  have h2 := c9_chat_error_mapping (fun _ => LLMOutcome.failure)
    (fun _ => LLMOutcome.failure) "ok".data
  have h3 := c9_chat_error_mapping (fun _ => LLMOutcome.success "ok".data)
    (fun _ => LLMOutcome.success "ok".data) "ok".data
  exact ⟨h1.1 rfl, h2.2.1 rfl, h3.2.2.1 rfl⟩
